import Mathlib

/-!
Verification of the RSS Reader Cloudflare Worker backend (`src/index.js`).

The worker keeps three persisted collections behind a whole-value get/put
KV store: the feed registry (key "feeds"), the article set (key "articles")
and the starred-id list (key "starred").  Every handler follows a
read-modify-write-whole-collection pattern, so each handler is embedded as
a pure function from the in-memory `Store` (the parsed contents of the
three KV values) to a response value paired with the successor `Store`.

External effects are embedded as oracle parameters:
  * `fetchAndParseFeed` (network + parser) becomes a function
    `String → Except String ParsedFeed` from a feed URL to either the
    thrown error message or the parsed feed;
  * `generateId` becomes a function `Nat → String` indexed by the order of
    the calls within one handler invocation;
  * `new Date().toISOString()` becomes a `now : String` parameter;
  * `new URL(url)` becomes an `Option String` hostname oracle;
  * `new Date(s)` inside the feed parser becomes a `DateOracle`.

JavaScript string fields coming out of the parser are always strings, so
the JS truthiness test `s ? _ : _` on them is embedded as `s ≠ ""` and
`a || b` as `if a = "" then b else a`.
-/

namespace RSSWorker

/-! ### Definitions: the embedded data model and handlers -/


/-- JS `a || b` on strings: `a` if truthy (non-empty), else `b`. -/
def jsOr (a b : String) : String := if a = "" then b else a

/-- One normalized item produced by `parseFeed` (`{title, description,
content, link, pubDate}`); every field is a string (possibly empty). -/
structure ParsedItem where
  title : String
  description : String
  content : String
  link : String
  pubDate : String
deriving DecidableEq, Repr

/-- The result of `parseFeed`: `{ title, items }`. -/
structure ParsedFeed where
  title : String
  items : List ParsedItem
deriving DecidableEq, Repr

/-- A feed registry entry: `{ id, name, url, lastFetched }`. -/
structure Feed where
  id : String
  name : String
  url : String
  lastFetched : String
deriving DecidableEq, Repr

/-- A stored article:
`{ id, feedId, title, excerpt, link, source, sourceUrl, date, read }`. -/
structure Article where
  id : String
  feedId : String
  title : String
  excerpt : String
  link : String
  source : String
  sourceUrl : String
  date : String
  read : Bool
deriving DecidableEq, Repr

/-- The three persisted collections: KV values under the keys
"feeds", "articles" and "starred". -/
structure Store where
  feeds : List Feed
  articles : List Article
  starred : List String
deriving DecidableEq, Repr

/-- The empty store: every KV key absent, each getter returns `[]`. -/
def Store.empty : Store := { feeds := [], articles := [], starred := [] }

/-- Insertion-order deduplication, modelling `new Set(array)` followed by
`Array.from(set)`: keeps the first occurrence of each element. -/
def setOfList (l : List String) : List String :=
  l.foldl (fun acc id => if acc.contains id then acc else acc ++ [id]) []

/-- Handler `handleToggleStar(articleId)`: builds a `Set` from the stored starred
list, deletes the id if present (returning `starred: false`) or adds it
(returning `starred: true`), and stores `Array.from(set)` back.  There is
no check that the id names an existing article. -/
def handleToggleStar (articleId : String) (s : Store) : (String × Bool) × Store :=
  let starredSet := setOfList s.starred
  if starredSet.contains articleId then
    ((articleId, false), { s with starred := starredSet.filter (fun id => id != articleId) })
  else
    ((articleId, true), { s with starred := starredSet ++ [articleId] })

/-- Replace the first element satisfying `p` by its image under `g`,
leaving the rest alone.  Models the in-place mutation of the object found
by `feeds.find(...)` inside the array later passed to `saveFeeds`. -/
def updateFirst (p : α → Bool) (g : α → α) : List α → List α
  | [] => []
  | x :: xs => if p x then g x :: xs else x :: updateFirst p g xs

/-- The article literal built for each surviving item inside
`handleRefreshFeed` / `handleRefreshAll` (and, with the fresh feed, inside
`handleAddFeed`, whose `sourceUrl: url` equals `newFeed.url`).  On string
fields the trailing JS `|| ""` is the identity, so `link: item.link || ""`
is embedded as `item.link`. -/
def mkArticle (feed : Feed) (id : String) (now : String) (item : ParsedItem) : Article :=
  { id := id
    feedId := feed.id
    title := jsOr item.title "Untitled"
    excerpt := jsOr item.description item.content
    link := item.link
    source := feed.name
    sourceUrl := feed.url
    date := jsOr item.pubDate now
    read := false }

/-- Response of `handleAddFeed`. -/
inductive AddFeedResult where
  | missingUrl                                      -- 400 "URL is required"
  | invalidUrl                                      -- 400 "Invalid URL"
  | duplicate                                       -- 409 "Feed already exists"
  | fetchFailed (message : String)                  -- 400 "Failed to fetch feed"
  | created (feed : Feed) (articlesAdded : Nat)     -- 201
deriving DecidableEq, Repr

/-- Handler `handleAddFeed`: validate the URL (`urlHost` is the `new URL` oracle,
`none` meaning the constructor throws), reject a duplicate feed URL,
fetch+parse, then append the new feed and one article per parsed item
(no dedup on first add). -/
def handleAddFeed (fetchParse : String → Except String ParsedFeed)
    (urlHost : Option String) (newFeedId : String) (genId : Nat → String) (now : String)
    (url name : String) (s : Store) : AddFeedResult × Store :=
  if url = "" then (.missingUrl, s)
  else match urlHost with
  | none => (.invalidUrl, s)
  | some host =>
    if s.feeds.any (fun f => f.url == url) then (.duplicate, s)
    else match fetchParse url with
    | .error msg => (.fetchFailed msg, s)
    | .ok parsedFeed =>
      let newFeed : Feed :=
        { id := newFeedId
          name := jsOr name (jsOr parsedFeed.title host)
          url := url
          lastFetched := now }
      let newArticles := parsedFeed.items.enum.map
        (fun p => mkArticle newFeed (genId p.1) now p.2)
      (.created newFeed newArticles.length,
        { s with feeds := s.feeds ++ [newFeed], articles := s.articles ++ newArticles })

/-- Response of `handleRefreshFeed`. -/
inductive RefreshResult where
  | notFound                      -- 404 "Feed not found"
  | failed (message : String)     -- 500 "Failed to refresh feed"
  | ok (newArticles : Nat)        -- 200 { success: true, newArticles }
deriving DecidableEq, Repr

/-- The dedup filter of a refresh: keep items whose `link` is truthy and
whose link is not in the `Set` of links of articles already stored for
`feedId`. -/
def newItemsFor (articles : List Article) (feedId : String) (items : List ParsedItem) :
    List ParsedItem :=
  let existingLinks := (articles.filter (fun a => a.feedId == feedId)).map (fun a => a.link)
  items.filter (fun item => item.link != "" && !(existingLinks.contains item.link))

/-- Handler `handleRefreshFeed(feedId)`: 404 if no feed has the id; otherwise
fetch+parse its URL, append the deduplicated new articles (the `articles`
key is rewritten only when at least one was added, which equals appending
the possibly-empty list), and set the found feed's `lastFetched` before
saving the feeds array.  On a fetch/parse throw the catch block returns a
500 without touching the store. -/
def handleRefreshFeed (fetchParse : String → Except String ParsedFeed)
    (genId : Nat → String) (now : String) (feedId : String) (s : Store) :
    RefreshResult × Store :=
  match s.feeds.find? (fun f => f.id == feedId) with
  | none => (.notFound, s)
  | some feed =>
    match fetchParse feed.url with
    | .error msg => (.failed msg, s)
    | .ok parsedFeed =>
      let newArticles := (newItemsFor s.articles feedId parsedFeed.items).enum.map
        (fun p => mkArticle feed (genId p.1) now p.2)
      let articles := if 0 < newArticles.length then s.articles ++ newArticles else s.articles
      let feeds := updateFirst (fun f => f.id == feedId)
        (fun f => { f with lastFetched := now }) s.feeds
      (.ok newArticles.length, { s with feeds := feeds, articles := articles })

/-- Response of `handleDeleteFeed`. -/
inductive DeleteResult where
  | notFound      -- 404 "Feed not found"
  | success       -- 200 { success: true }
deriving DecidableEq, Repr

/-- Handler `handleDeleteFeed(feedId)`: 404 if `findIndex` misses; otherwise
splice out the first feed with the id, drop every article whose `feedId`
matches, and drop the ids of those articles from the starred list. -/
def handleDeleteFeed (feedId : String) (s : Store) : DeleteResult × Store :=
  if s.feeds.all (fun f => !(f.id == feedId)) then (.notFound, s)
  else
    let feeds := s.feeds.eraseP (fun f => f.id == feedId)
    let remainingArticles := s.articles.filter (fun a => !(a.feedId == feedId))
    let idsToRemove := (s.articles.filter (fun a => a.feedId == feedId)).map (fun a => a.id)
    let remainingStarred := s.starred.filter (fun id => !(idsToRemove.contains id))
    (.success, { feeds := feeds, articles := remainingArticles, starred := remainingStarred })

/-- One entry of the `results` array of `handleRefreshAll`. -/
inductive FeedResult where
  | success (feedId name : String) (newArticles : Nat)
  | failure (feedId name : String) (error : String)
deriving DecidableEq, Repr

/-- The `for (const feed of feeds)` loop of `handleRefreshAll`: iterates
the registered feeds in order, threading the accumulated article list
(each iteration re-reads the `articles` key, which holds what the previous
iteration saved) and the count of `generateId` calls so far; a throw in
one iteration is caught and recorded, leaving that feed and the articles
untouched. -/
def refreshAllGo (fetchParse : String → Except String ParsedFeed)
    (genId : Nat → String) (now : String) :
    List Feed → List Article → Nat → List Feed × List Article × List FeedResult
  | [], articles, _ => ([], articles, [])
  | feed :: rest, articles, k =>
    match fetchParse feed.url with
    | .error msg =>
      let r := refreshAllGo fetchParse genId now rest articles k
      (feed :: r.1, r.2.1, .failure feed.id feed.name msg :: r.2.2)
    | .ok parsedFeed =>
      let newArticles := (newItemsFor articles feed.id parsedFeed.items).enum.map
        (fun p => mkArticle feed (genId (k + p.1)) now p.2)
      let articles2 := if 0 < newArticles.length then articles ++ newArticles else articles
      let r := refreshAllGo fetchParse genId now rest articles2 (k + newArticles.length)
      ({ feed with lastFetched := now } :: r.1, r.2.1,
        .success feed.id feed.name newArticles.length :: r.2.2)

/-- Handler `handleRefreshAll`: run the per-feed loop over every registered feed
and save the (per-success mutated) feeds array once after the loop;
always answers 200 with the full `results` list. -/
def handleRefreshAll (fetchParse : String → Except String ParsedFeed)
    (genId : Nat → String) (now : String) (s : Store) : List FeedResult × Store :=
  let r := refreshAllGo fetchParse genId now s.feeds s.articles 0
  (r.2.2, { s with feeds := r.1, articles := r.2.1 })

/-- The article shape returned by `handleGetArticles`: a stored article
spread together with a `starred` boolean. -/
structure StarredArticle extends Article where
  starred : Bool
deriving DecidableEq, Repr

/-- The `if (feedId) { filteredArticles = filteredArticles.filter(...) }`
step of `handleGetArticles`: `searchParams.get` yields `none` when the
query parameter is absent, and the empty string is falsy, so both leave
the list unfiltered. -/
def applyFeedFilter (feedIdParam : Option String) (articles : List Article) :
    List Article :=
  match feedIdParam with
  | some fid => if fid ≠ "" then articles.filter (fun a => a.feedId == fid) else articles
  | none => articles

/-- The `if (starredOnly) { ... }` step of `handleGetArticles`, where
`starredOnly` is `searchParams.get("starred") === "true"`. -/
def applyStarFilter (starredParam : Option String) (starredSet : List String)
    (articles : List Article) : List Article :=
  if starredParam == some "true" then
    articles.filter (fun a => starredSet.contains a.id)
  else articles

/-- The `filteredArticles.map((a) => ({ ...a, starred: ... }))` step of
`handleGetArticles`. -/
def annotateStar (starredSet : List String) (articles : List Article) :
    List StarredArticle :=
  articles.map
    (fun (a : Article) => { toArticle := a, starred := starredSet.contains a.id : StarredArticle })

/-- Handler `handleGetArticles`: apply the optional `feedId` query filter (absent
or empty string means no filter, since JS tests truthiness), the optional
`starred=true` filter, annotate each article with its membership in the
starred set, and sort by `timeOf date` descending, `timeOf` being the
`new Date(_).getTime()` oracle.  `Array.prototype.sort` with the
consistent comparator `(a, b) => t(b) - t(a)` is modelled by a stable
merge sort with `le a b := t(b.date) ≤ t(a.date)`. -/
def handleGetArticles (timeOf : String → Int)
    (feedIdParam starredParam : Option String) (s : Store) : List StarredArticle :=
  (annotateStar (setOfList s.starred)
      (applyStarFilter starredParam (setOfList s.starred)
        (applyFeedFilter feedIdParam s.articles))).mergeSort
    (fun a b => decide (timeOf b.date ≤ timeOf a.date))

def feed1 : Feed :=
  { id := "f1", name := "Feed One", url := "http://one.example/rss",
    lastFetched := "2024-01-01T00:00:00Z" }

def feed2 : Feed :=
  { id := "f2", name := "Feed Two", url := "http://two.example/rss",
    lastFetched := "2024-01-02T00:00:00Z" }

def item1 : ParsedItem :=
  { title := "A1", description := "first", content := "",
    link := "http://one.example/a1", pubDate := "2024-03-01T00:00:00Z" }

def item2 : ParsedItem :=
  { title := "A2", description := "second", content := "",
    link := "http://one.example/a2", pubDate := "2024-03-02T00:00:00Z" }

def pf1 : ParsedFeed := { title := "One", items := [item1] }

def storeOne : Store := { feeds := [feed1], articles := [], starred := [] }

def art1 : Article := mkArticle feed1 "a1" "2024-01-01T00:00:00Z" item1

def art2 : Article := mkArticle feed2 "a2" "2024-01-02T00:00:00Z" item2

def storeTwo : Store :=
  { feeds := [feed1, feed2], articles := [art1, art2], starred := ["a1", "a2"] }

/-- The fetch oracle used by the C7 witness: feed one parses, feed two
throws. -/
def fetchOneOk : String → Except String ParsedFeed :=
  fun u => if u == "http://one.example/rss" then .ok pf1 else .error "boom"

/-- The fresh `Feed` record built by `handleAddFeed` from the request
body, the parsed title, the URL host and the clock. -/
def newFeedOf (newFeedId name title host url now : String) : Feed :=
  { id := newFeedId, name := jsOr name (jsOr title host), url := url, lastFetched := now }

/-- One state-mutating backend operation, carrying the oracle values its
handler consumes (fetch results, generated ids, clock readings, URL
parsing).  These are exactly the mutating routes dispatched by
`handleApiRequest`; the remaining routes (health check, feed listing,
article listing, the API index fallback) write no collection, and no
route modifies the `read` field of an article — the API exposes no
read-toggle endpoint. -/
inductive Op where
  | add (url name : String) (urlHost : Option String)
      (fetch : String → Except String ParsedFeed)
      (newFeedId : String) (genId : Nat → String) (now : String)
  | refresh (feedId : String) (fetch : String → Except String ParsedFeed)
      (genId : Nat → String) (now : String)
  | refreshAll (fetch : String → Except String ParsedFeed)
      (genId : Nat → String) (now : String)
  | remove (feedId : String)
  | star (articleId : String)

/-- Apply one operation's handler to the store, discarding the response. -/
def applyOp (s : Store) : Op → Store
  | .add url name urlHost fetch newFeedId genId now =>
      (handleAddFeed fetch urlHost newFeedId genId now url name s).2
  | .refresh feedId fetch genId now => (handleRefreshFeed fetch genId now feedId s).2
  | .refreshAll fetch genId now => (handleRefreshAll fetch genId now s).2
  | .remove feedId => (handleDeleteFeed feedId s).2
  | .star articleId => (handleToggleStar articleId s).2

/-- Run a sequence of operations against a store. -/
def runOps (s : Store) : List Op → Store
  | [] => s
  | op :: ops => runOps (applyOp s op) ops

/-- The `link` values of the stored articles carrying the given `feedId`. -/
def linksOf (articles : List Article) (fid : String) : List String :=
  (articles.filter (fun a => a.feedId == fid)).map (fun a => a.link)

/-- The dedup invariant claimed by the spec: within one `feedId`, the
`link` values of the articles currently stored are pairwise distinct. -/
def DedupInv (s : Store) : Prop :=
  ∀ fid, (linksOf s.articles fid).Nodup

/-- Auxiliary invariant: every stored article's `feedId` is a registered
feed id, and registered feed ids are pairwise distinct. -/
def OwnedInv (s : Store) : Prop :=
  (∀ a ∈ s.articles, a.feedId ∈ s.feeds.map Feed.id) ∧ (s.feeds.map Feed.id).Nodup

/-- A fetch result is benign for the dedup invariant when its items carry
pairwise-distinct `link` values (failures are trivially benign). -/
def fetchLinksNodup (fetch : String → Except String ParsedFeed) (url : String) : Bool :=
  match fetch url with
  | .ok p => decide ((p.items.map (fun it => it.link)).Nodup)
  | .error _ => true

/-- Side conditions under which one operation preserves the dedup
invariant: a generated feed id must not collide with a registered feed
id, and every fetched body must have pairwise-distinct item links. -/
def goodOp (s : Store) : Op → Bool
  | .add url _ _ fetch newFeedId _ _ =>
      decide (newFeedId ∉ s.feeds.map Feed.id) && fetchLinksNodup fetch url
  | .refresh feedId fetch _ _ =>
      match s.feeds.find? (fun f => f.id == feedId) with
      | some feed => fetchLinksNodup fetch feed.url
      | none => true
  | .refreshAll fetch _ _ => s.feeds.all (fun feed => fetchLinksNodup fetch feed.url)
  | .remove _ => true
  | .star _ => true

/-- Every operation of the run satisfies its side condition in the state
it executes in. -/
def goodRun (s : Store) : List Op → Bool
  | [] => true
  | op :: ops => goodOp s op && goodRun (applyOp s op) ops

/-- Two parsed items sharing one link, as an upstream body may contain. -/
def dupItem1 : ParsedItem :=
  { title := "D1", description := "", content := "",
    link := "http://one.example/dup", pubDate := "2024-03-01T00:00:00Z" }

/-- Second copy: same `link`, different title. -/
def dupItem2 : ParsedItem :=
  { title := "D2", description := "", content := "",
    link := "http://one.example/dup", pubDate := "2024-03-02T00:00:00Z" }

/-- A single addFeed whose fetched body repeats one link twice. -/
def dupOps : List Op :=
  [.add "http://one.example/rss" "One" (some "one.example")
    (fun _ => .ok { title := "One", items := [dupItem1, dupItem2] })
    "f1" (fun _ => "aid") "2024-01-01T00:00:00Z"]

/-- A benign run used by the C1 witness: add a feed, then refresh it. -/
def goodOpsW : List Op :=
  [.add "http://one.example/rss" "One" (some "one.example")
      (fun _ => .ok pf1) "f1" (fun _ => "a1") "2024-01-01T00:00:00Z",
    .refresh "f1" (fun _ => .ok { title := "One", items := [item1, item2] })
      (fun _ => "a2") "2024-01-02T00:00:00Z"]

/-- Case-sensitive literal match at the head; on success returns the rest
(the mechanism behind `String.includes` and the entity replacements). -/
def dropLit : List Char → List Char → Option (List Char)
  | [], s => some s
  | _, [] => none
  | p :: ps, c :: cs => if p == c then dropLit ps cs else none

/-- Case-insensitive literal match at the head (the regexes carry the `i`
flag); on success returns the rest. -/
def dropLitCI : List Char → List Char → Option (List Char)
  | [], s => some s
  | _, [] => none
  | p :: ps, c :: cs => if p.toLower == c.toLower then dropLitCI ps cs else none

/-- Consume the regex piece `[^>]*>`: everything before the first `>`,
and the `>` itself; `none` when no `>` remains. -/
def dropAttrs : List Char → Option (List Char)
  | [] => none
  | c :: cs => if c = '>' then some cs else dropAttrs cs

/-- Lazy capture `([\s\S]*?)` followed by the literal `close`
(case-insensitively): the shortest prefix before the first occurrence of
`close`, paired with the rest after it. -/
def captureUntil (close : List Char) : List Char → Option (List Char × List Char)
  | [] => none
  | c :: cs =>
    match dropLitCI close (c :: cs) with
    | some rest => some ([], rest)
    | none =>
      match captureUntil close cs with
      | some (cap, rest) => some (c :: cap, rest)
      | none => none

/-- Match `<tag[^>]*>([\s\S]*?)</tag>` (flags `i`) at the start of `s`;
returns the capture and the rest after the close tag. -/
def matchBlockAt (tag : List Char) (s : List Char) : Option (List Char × List Char) :=
  match dropLitCI ('<' :: tag) s with
  | none => none
  | some afterOpen =>
    match dropAttrs afterOpen with
    | none => none
    | some body => captureUntil ('<' :: '/' :: (tag ++ ['>'])) body

/-- The `matchAll` loop over `<tag[^>]*>([\s\S]*?)</tag>` (flags `gi`):
non-overlapping matches scanned left to right, resuming after each match.
Fuel bounds the recursion; every step consumes at least one character, so
the input length is enough fuel. -/
def scanBlocks (tag : List Char) : Nat → List Char → List (List Char)
  | 0, _ => []
  | _ + 1, [] => []
  | fuel + 1, c :: cs =>
    match matchBlockAt tag (c :: cs) with
    | some (cap, rest) => cap :: scanBlocks tag fuel rest
    | none => scanBlocks tag fuel cs

/-- The `String.match` (non-global) search: the first position where the
position matcher `m` succeeds, scanning left to right. -/
def firstMatch {α : Type} (m : List Char → Option α) : Nat → List Char → Option α
  | 0, _ => none
  | _ + 1, [] => none
  | fuel + 1, c :: cs =>
    match m (c :: cs) with
    | some r => some r
    | none => firstMatch m fuel cs

/-- Match the CDATA form `<tag[^>]*><!\[CDATA\[([\s\S]*?)\]\]></tag>`
(flags `i`) at the start of `s`, returning the capture. -/
def matchCdataAt (tag : List Char) (s : List Char) : Option (List Char) :=
  match dropLitCI ('<' :: tag) s with
  | none => none
  | some afterOpen =>
    match dropAttrs afterOpen with
    | none => none
    | some body =>
      match dropLitCI "<![CDATA[".data body with
      | none => none
      | some inCdata =>
        match captureUntil ("]]></".data ++ tag ++ ['>']) inCdata with
        | some (cap, _) => some cap
        | none => none

/-- Match the plain form `<tag[^>]*>([\s\S]*?)</tag>` at the start of
`s`, returning only the capture. -/
def matchTagAt (tag : List Char) (s : List Char) : Option (List Char) :=
  match matchBlockAt tag s with
  | some (cap, _) => some cap
  | none => none

/-- The source's `extractTag(xml, tagName, parentTag)`: optionally scope
the search to the first `parentTag` block, then try the CDATA-wrapped
form first and the plain form second, returning `""` when neither regex
matches. -/
def extractTagIn (xml : List Char) (tagName : List Char)
    (parentTag : Option (List Char)) : List Char :=
  let searchXml := match parentTag with
    | some ptag =>
      match firstMatch (matchTagAt ptag) xml.length xml with
      | some inner => inner
      | none => xml
    | none => xml
  match firstMatch (matchCdataAt tagName) searchXml.length searchXml with
  | some cap => cap
  | none =>
    match firstMatch (matchTagAt tagName) searchXml.length searchXml with
    | some cap => cap
    | none => []

/-- Global replacement of a literal pattern (the entity decodes of
`cleanHtml`): left-to-right, non-overlapping, never rescanning the
replacement text.  Fuel bounds the recursion. -/
def replaceAll (pat rep : List Char) : Nat → List Char → List Char
  | 0, s => s
  | _ + 1, [] => []
  | fuel + 1, c :: cs =>
    match dropLit pat (c :: cs) with
    | some rest => rep ++ replaceAll pat rep fuel rest
    | none => c :: replaceAll pat rep fuel cs

/-- The tag-removal replace `/<[^>]+>/g → ""` of `cleanHtml`: a `<`
followed by at least one non-`>` character and a `>` is dropped; a `<`
that opens no such run is kept. -/
def stripTags : Nat → List Char → List Char
  | 0, s => s
  | _ + 1, [] => []
  | fuel + 1, c :: cs =>
    if c = '<' then
      match cs with
      | [] => ['<']
      | d :: _ =>
        if d = '>' then '<' :: stripTags fuel cs
        else
          match dropAttrs cs with
          | some rest => stripTags fuel rest
          | none => '<' :: stripTags fuel cs
    else c :: stripTags fuel cs

/-- The character class `\s` of JavaScript regexes (and the characters
removed by `String.trim`). -/
def isJsSpace (c : Char) : Bool :=
  c == ' ' || c == '\t' || c == '\n' || c == '\r' ||
  c == '\x0B' || c == '\x0C' || c == ' ' || c == ' ' ||
  (decide (' ' ≤ c) && decide (c ≤ ' ')) ||
  c == ' ' || c == ' ' || c == ' ' || c == ' ' ||
  c == '　' || c == '﻿'

/-- The whitespace collapse `/\s+/g → " "` of `cleanHtml`. -/
def collapseWs : Nat → List Char → List Char
  | 0, s => s
  | _ + 1, [] => []
  | fuel + 1, c :: cs =>
    if isJsSpace c then ' ' :: collapseWs fuel (cs.dropWhile isJsSpace)
    else c :: collapseWs fuel cs

/-- JavaScript `String.trim`. -/
def trimJs (s : List Char) : List Char :=
  ((s.dropWhile isJsSpace).reverse.dropWhile isJsSpace).reverse

/-- The source's `cleanHtml`: decode the six entities in order, strip tag
markup, collapse whitespace runs, trim, and hard-truncate to 500
characters; the falsy (empty) input short-circuits to `""`. -/
def cleanHtml (html : List Char) : List Char :=
  if html = [] then []
  else
    let s1 := replaceAll "&lt;".data "<".data html.length html
    let s2 := replaceAll "&gt;".data ">".data s1.length s1
    let s3 := replaceAll "&amp;".data "&".data s2.length s2
    let s4 := replaceAll "&quot;".data "\"".data s3.length s3
    let s5 := replaceAll "&#39;".data "\x27".data s4.length s4
    let s6 := replaceAll "&nbsp;".data " ".data s5.length s5
    let s7 := stripTags s6.length s6
    let s8 := collapseWs s7.length s7
    (trimJs s8).take 500

/-- The external `Date` machinery of `parseDate`: `tryParse` models
`new Date(s)` with its `isNaN`/`toISOString` round trip (`none` when the
date string does not parse), `nowIso` models `new Date().toISOString()`. -/
structure DateOracle where
  tryParse : String → Option String
  nowIso : String

/-- The source's `parseDate`: the parsed ISO instant, or the current
instant when the string is falsy or unparsable. -/
def parseDate (dp : DateOracle) (dateStr : String) : String :=
  if dateStr = "" then dp.nowIso
  else match dp.tryParse dateStr with
    | some iso => iso
    | none => dp.nowIso

/-- JS `a || b` on extracted character lists (empty means falsy). -/
def jsOrL (a b : List Char) : List Char := if a = [] then b else a

/-- Pack a character list back into a `String`. -/
def strOf (l : List Char) : String := ⟨l⟩

/-- One `<item>` of an RSS 2.0 feed, as built by `parseRssFeed`. -/
def parseRssItem (dp : DateOracle) (itemXml : List Char) : ParsedItem :=
  { title := strOf (cleanHtml (extractTagIn itemXml "title".data none))
    description := strOf (cleanHtml (extractTagIn itemXml "description".data none))
    content := strOf (cleanHtml (jsOrL (extractTagIn itemXml "content:encoded".data none)
      (extractTagIn itemXml "content".data none)))
    link := strOf (extractTagIn itemXml "link".data none)
    pubDate := parseDate dp (strOf (jsOrL (extractTagIn itemXml "pubDate".data none)
      (extractTagIn itemXml "dc:date".data none))) }

/-- The source's `parseRssFeed`: the channel-scoped title and one
normalized item per `<item>` block. -/
def parseRssFeed (dp : DateOracle) (xml : String) : ParsedFeed :=
  { title := strOf (cleanHtml (extractTagIn xml.data "title".data (some "channel".data)))
    items := (scanBlocks "item".data xml.data.length xml.data).map (parseRssItem dp) }

/-- Either quote character, `["']`. -/
def isQuote (c : Char) : Bool := c == '"' || c == '\x27'

/-- Capture `([^"\x27]*)` up to the next quote; `none` when no quote
follows (the closing `["']` of the regex then fails). -/
def captureQuoted : List Char → Option (List Char)
  | [] => none
  | c :: cs =>
    if isQuote c then some []
    else match captureQuoted cs with
      | some cap => some (c :: cap)
      | none => none

/-- The last completable `href=["']([^"']*)["']` in the segment: the
greedy `[^>]*` before it backtracks from the right, so the rightmost
occurrence with a closing quote wins. -/
def lastHref : List Char → Option (List Char)
  | [] => none
  | c :: cs =>
    match lastHref cs with
    | some cap => some cap
    | none =>
      match dropLitCI "href=".data (c :: cs) with
      | some afterEq =>
        match afterEq with
        | [] => none
        | q :: qs => if isQuote q then captureQuoted qs else none
      | none => none

/-- The segment before the first `>` and the rest after it.  Every piece
of the link regexes other than the final `>` matches only non-`>`
characters, so a match always ends at the first `>` after `<link`. -/
def splitAtGt : List Char → Option (List Char × List Char)
  | [] => none
  | c :: cs =>
    if c = '>' then some ([], cs)
    else match splitAtGt cs with
      | some (seg, rest) => some (c :: seg, rest)
      | none => none

/-- Match `rel=["']alternate["']` at the head (case-insensitively),
returning the rest. -/
def matchRelAltAt (l : List Char) : Option (List Char) :=
  match dropLitCI "rel=".data l with
  | none => none
  | some afterEq =>
    match afterEq with
    | [] => none
    | q :: qs =>
      if isQuote q then
        match dropLitCI "alternate".data qs with
        | none => none
        | some afterAlt =>
          match afterAlt with
          | [] => none
          | q2 :: rest2 => if isQuote q2 then some rest2 else none
      else none

/-- The last `rel=["']alternate["']` of the segment that is followed by a
completable `href=` capture (greedy backtracking of the two `[^>]*` runs
in the `rel="alternate"` link regex). -/
def lastRelAltHref : List Char → Option (List Char)
  | [] => none
  | c :: cs =>
    match lastRelAltHref cs with
    | some cap => some cap
    | none =>
      match matchRelAltAt (c :: cs) with
      | some rest => lastHref rest
      | none => none

/-- Match `<link[^>]*href=["']([^"']*)["'][^>]*\/>` (flag `i`) at the
start of `s`: the element must be self-closing (the first `>` after
`<link` is preceded by `/`), and the capture comes from the rightmost
completable `href=`. -/
def matchLinkSelfAt (s : List Char) : Option (List Char) :=
  match dropLitCI "<link".data s with
  | none => none
  | some rest =>
    match splitAtGt rest with
    | none => none
    | some (seg, _) =>
      if seg.getLast? == some '/' then lastHref seg.dropLast else none

/-- Match `<link[^>]*rel=["']alternate["'][^>]*href=["']([^"']*)["'][^>]*\/?>`
(flag `i`) at the start of `s`. -/
def matchLinkAltAt (s : List Char) : Option (List Char) :=
  match dropLitCI "<link".data s with
  | none => none
  | some rest =>
    match splitAtGt rest with
    | none => none
    | some (seg, _) => lastRelAltHref seg

/-- One `<entry>` of an Atom feed, as built by `parseAtomFeed`: the
`rel="alternate"` link is preferred, then any self-closing link with an
`href`, else `""`. -/
def parseAtomEntry (dp : DateOracle) (entryXml : List Char) : ParsedItem :=
  let linkAlt := firstMatch matchLinkAltAt entryXml.length entryXml
  let linkSelf := firstMatch matchLinkSelfAt entryXml.length entryXml
  let link : List Char := match linkAlt with
    | some l => l
    | none => match linkSelf with
      | some l => l
      | none => []
  { title := strOf (cleanHtml (extractTagIn entryXml "title".data none))
    description := strOf (cleanHtml (extractTagIn entryXml "summary".data none))
    content := strOf (cleanHtml (extractTagIn entryXml "content".data none))
    link := strOf link
    pubDate := parseDate dp (strOf (jsOrL (extractTagIn entryXml "published".data none)
      (extractTagIn entryXml "updated".data none))) }

/-- The source's `parseAtomFeed`: the feed-scoped title and one
normalized item per `<entry>` block. -/
def parseAtomFeed (dp : DateOracle) (xml : String) : ParsedFeed :=
  { title := strOf (cleanHtml (extractTagIn xml.data "title".data (some "feed".data)))
    items := (scanBlocks "entry".data xml.data.length xml.data).map (parseAtomEntry dp) }

/-- Substring test, modelling `String.includes` (case-sensitive). -/
def containsSub (pat : List Char) : List Char → Bool
  | [] => pat.isEmpty
  | c :: cs => (dropLit pat (c :: cs)).isSome || containsSub pat cs

/-- The Atom classification of `parseFeed`: the document contains
`<feed` and the Atom namespace declaration. -/
def isAtomXml (xml : String) : Bool :=
  containsSub "<feed".data xml.data &&
  containsSub "xmlns=\"http://www.w3.org/2005/Atom\"".data xml.data

/-- The source's `parseFeed`: dispatch on the Atom classification,
otherwise parse as RSS 2.0.  A total function: malformed input degrades
to empty titles and an empty item list, it never throws. -/
def parseFeed (dp : DateOracle) (xml : String) : ParsedFeed :=
  if isAtomXml xml then parseAtomFeed dp xml else parseRssFeed dp xml

/-- The date oracle used by the C9 witness: no date string parses. -/
def dpW : DateOracle := { tryParse := fun _ => none, nowIso := "2024-01-01T00:00:00Z" }

/-- An RSS body with a channel title and zero items. -/
def emptyRss : String := "<rss><channel><title>News</title></channel></rss>"

/-! ### Theorems -/

theorem contains_iff (l : List String) (a : String) : l.contains a = true ↔ a ∈ l :=
  List.elem_iff

theorem mem_setOfList_aux (l acc : List String) (x : String) :
    x ∈ l.foldl (fun acc id => if acc.contains id then acc else acc ++ [id]) acc ↔
      x ∈ acc ∨ x ∈ l := by
  induction l generalizing acc with
  | nil => simp
  | cons y ys ih =>
    simp only [List.foldl_cons]
    by_cases hy : acc.contains y = true
    · simp only [hy, if_pos]
      rw [ih]
      constructor
      · rintro (h | h)
        · exact Or.inl h
        · exact Or.inr (List.mem_cons_of_mem _ h)
      · rintro (h | h)
        · exact Or.inl h
        · rcases List.mem_cons.mp h with rfl | h
          · exact Or.inl ((contains_iff acc x).mp hy)
          · exact Or.inr h
    · simp only [hy, if_neg, Bool.false_eq_true, not_false_iff]
      rw [ih]
      simp only [List.mem_append, List.mem_singleton, List.mem_cons]
      tauto

theorem mem_setOfList (l : List String) (x : String) :
    x ∈ setOfList l ↔ x ∈ l := by
  unfold setOfList
  rw [mem_setOfList_aux]
  simp

/-- C6: `toggleStar` is an involution.  For every store and every article
id (existing or not): the first call flips membership of the id in the
starred set and returns the resulting membership boolean, the second call
returns the negation, and after two calls the starred set has exactly the
original membership.  The handler never inspects the article collection,
so a non-existent id is accepted and still flips membership. -/
theorem toggleStar_involution (s : Store) (articleId : String) :
    let r1 := handleToggleStar articleId s
    let r2 := handleToggleStar articleId r1.2
    (r1.1.2 = true ↔ articleId ∉ s.starred) ∧
    (r1.1.2 = (r1.2.starred.contains articleId)) ∧
    (r2.1.2 = (r2.2.starred.contains articleId)) ∧
    (r2.1.2 = !r1.1.2) ∧
    (∀ x, x ∈ r2.2.starred ↔ x ∈ s.starred) := by
  intro r1 r2
  show _ ∧ _ ∧ _ ∧ _ ∧ _
  unfold r2 r1 handleToggleStar
  by_cases h1 : (setOfList s.starred).contains articleId = true
  · have hmem : articleId ∈ s.starred := (mem_setOfList _ _).mp ((contains_iff _ _).mp h1)
    simp only [h1, if_pos]
    have hnot : ((setOfList s.starred).filter (fun id => id != articleId)).contains articleId
        = false := by
      rw [Bool.eq_false_iff]
      intro hc
      have := (contains_iff _ _).mp hc
      have := (List.mem_filter.mp this).2
      rw [bne_iff_ne] at this
      exact this rfl
    have hnot2 : (setOfList ((setOfList s.starred).filter
        (fun id => id != articleId))).contains articleId = false := by
      rw [Bool.eq_false_iff]
      intro hc
      have := (mem_setOfList _ _).mp ((contains_iff _ _).mp hc)
      have := (List.mem_filter.mp this).2
      rw [bne_iff_ne] at this
      exact this rfl
    simp only [hnot2, Bool.false_eq_true, if_neg, not_false_iff]
    refine ⟨by simp [hmem], ?_, ?_, rfl, ?_⟩
    · exact hnot.symm
    · symm
      rw [contains_iff]
      simp
    · intro x
      simp only [List.mem_append, List.mem_singleton, mem_setOfList, List.mem_filter]
      constructor
      · rintro (⟨hx, _⟩ | rfl)
        · exact hx
        · exact hmem
      · intro hx
        by_cases hxa : x = articleId
        · exact Or.inr hxa
        · exact Or.inl ⟨hx, bne_iff_ne.mpr hxa⟩
  · have hmem : articleId ∉ s.starred := fun hc =>
      h1 ((contains_iff _ _).mpr ((mem_setOfList _ _).mpr hc))
    simp only [h1, Bool.false_eq_true, if_neg, not_false_iff]
    have h2 : (setOfList (setOfList s.starred ++ [articleId])).contains articleId = true := by
      rw [contains_iff, mem_setOfList]
      simp
    simp only [h2, if_pos]
    refine ⟨by simp [hmem], ?_, ?_, rfl, ?_⟩
    · symm
      rw [contains_iff]
      simp
    · symm
      rw [Bool.eq_false_iff]
      intro hc
      have := (contains_iff _ _).mp hc
      have := (List.mem_filter.mp this).2
      rw [bne_iff_ne] at this
      exact this rfl
    · intro x
      simp only [List.mem_filter, mem_setOfList, List.mem_append, List.mem_singleton]
      constructor
      · rintro ⟨hx | rfl, hne⟩
        · exact hx
        · exact absurd rfl (bne_iff_ne.mp hne)
      · intro hx
        have hxa : x ≠ articleId := fun h => hmem (h ▸ hx)
        exact ⟨Or.inl hx, bne_iff_ne.mpr hxa⟩

theorem find?_eq_some_split {α : Type} {p : α → Bool} {l : List α} {a : α}
    (h : l.find? p = some a) :
    p a = true ∧ ∃ pre post, l = pre ++ a :: post ∧ ∀ x ∈ pre, p x = false := by
  induction l with
  | nil => simp at h
  | cons x xs ih =>
    by_cases hx : p x = true
    · rw [List.find?_cons_of_pos _ hx] at h
      cases h
      exact ⟨hx, [], xs, rfl, by simp⟩
    · rw [List.find?_cons_of_neg _ (by simpa using hx)] at h
      obtain ⟨hpa, pre, post, rfl, hpre⟩ := ih h
      refine ⟨hpa, x :: pre, post, rfl, ?_⟩
      intro y hy
      rcases List.mem_cons.mp hy with rfl | hy
      · simpa using hx
      · exact hpre y hy

theorem find?_append_cons {α : Type} {p : α → Bool} {pre post : List α} {a : α}
    (hpre : ∀ x ∈ pre, p x = false) (ha : p a = true) :
    (pre ++ a :: post).find? p = some a := by
  induction pre with
  | nil => simpa using List.find?_cons_of_pos _ ha
  | cons x xs ih =>
    have hx := hpre x (List.mem_cons_self _ _)
    rw [List.cons_append, List.find?_cons_of_neg _ (by simp [hx])]
    exact ih (fun y hy => hpre y (List.mem_cons_of_mem _ hy))

theorem updateFirst_append_cons {α : Type} {p : α → Bool} {g : α → α}
    {pre post : List α} {a : α}
    (hpre : ∀ x ∈ pre, p x = false) (ha : p a = true) :
    updateFirst p g (pre ++ a :: post) = pre ++ g a :: post := by
  induction pre with
  | nil => simp [updateFirst, ha]
  | cons x xs ih =>
    have hx := hpre x (List.mem_cons_self _ _)
    simp only [List.cons_append, updateFirst, hx, Bool.false_eq_true, if_neg,
      not_false_iff, List.cons.injEq, true_and]
    exact ih (fun y hy => hpre y (List.mem_cons_of_mem _ hy))

/-- C2 counterexample: with one registered feed whose fetch throws,
`handleRefreshFeed` answers the 500 error and leaves the store — in
particular the feed's `lastFetched` — unchanged, contradicting the
claimed unconditional update: the stored value stays `2024-01-01…`,
which differs from the attempt time `2024-06-01…`. -/
theorem refreshFeed_failure_keeps_lastFetched :
    handleRefreshFeed (fun _ => .error "fetch failed") (fun _ => "a1")
        "2024-06-01T00:00:00Z" "f1" storeOne
      = (.failed "fetch failed", storeOne) ∧
    (handleRefreshFeed (fun _ => .error "fetch failed") (fun _ => "a1")
        "2024-06-01T00:00:00Z" "f1" storeOne).2.feeds.map Feed.lastFetched
      = ["2024-01-01T00:00:00Z"] ∧
    ("2024-01-01T00:00:00Z" : String) ≠ "2024-06-01T00:00:00Z" :=
  ⟨rfl, rfl, by decide⟩

/-- C2 (amended): for a registered feed, `handleRefreshFeed` updates that
feed's `lastFetched` to the attempt time only when the fetch+parse
succeeds, leaving every other field of the record and every other feed
unchanged; when the fetch or parse fails, the whole store (including
`lastFetched`) is left unchanged and the error is returned. -/
theorem refreshFeed_lastFetched (fetchParse : String → Except String ParsedFeed)
    (genId : Nat → String) (now feedId : String) (s : Store) (feed : Feed)
    (hfind : s.feeds.find? (fun f => f.id == feedId) = some feed) :
    (∀ msg, fetchParse feed.url = .error msg →
      handleRefreshFeed fetchParse genId now feedId s = (.failed msg, s)) ∧
    (∀ parsedFeed, fetchParse feed.url = .ok parsedFeed →
      feed.id = feedId ∧
      ∃ pre post, s.feeds = pre ++ feed :: post ∧ (∀ f ∈ pre, f.id ≠ feedId) ∧
        (handleRefreshFeed fetchParse genId now feedId s).2.feeds
          = pre ++ { feed with lastFetched := now } :: post) := by
  obtain ⟨hpa, pre, post, hsplit, hpre⟩ := find?_eq_some_split hfind
  constructor
  · intro msg hmsg
    unfold handleRefreshFeed
    rw [hfind]
    dsimp only
    rw [hmsg]
  · intro parsedFeed hok
    refine ⟨by simpa using hpa, pre, post, hsplit, ?_, ?_⟩
    · intro f hf
      simpa using hpre f hf
    · unfold handleRefreshFeed
      rw [hfind]
      dsimp only
      rw [hok]
      dsimp only
      rw [hsplit]
      exact updateFirst_append_cons hpre hpa

/-- C2 witness: the amended theorem applied to a one-feed store with a
successful fetch. -/
theorem refreshFeed_lastFetched_witness :
    (storeOne.feeds.find? (fun f => f.id == "f1") = some feed1) ∧
    (∃ pre post, storeOne.feeds = pre ++ feed1 :: post ∧ (∀ f ∈ pre, f.id ≠ "f1") ∧
      (handleRefreshFeed (fun _ => .ok pf1) (fun _ => "a1") "2024-06-01T00:00:00Z" "f1"
          storeOne).2.feeds
        = pre ++ { feed1 with lastFetched := "2024-06-01T00:00:00Z" } :: post) :=
  ⟨rfl, ((refreshFeed_lastFetched (fun _ => .ok pf1) (fun _ => "a1")
    "2024-06-01T00:00:00Z" "f1" storeOne feed1 rfl).2 pf1 rfl).2⟩

theorem append_if_nonempty {α : Type} (xs ys : List α) :
    (if 0 < ys.length then xs ++ ys else xs) = xs ++ ys := by
  cases ys <;> simp

/-- C4: when the refresh of a registered feed fetches and parses
successfully, the handler appends exactly one article per parsed item
whose `link` is non-empty and differs from the link of every article
already stored under that same `feedId` (links under other feedIds are
not consulted), reports `newArticles` equal to the number appended, and
any qualifying item really does appear among the appended articles. -/
theorem newItemsFor_eq_filter (articles : List Article) (fid : String)
    (items : List ParsedItem) :
    newItemsFor articles fid items
      = items.filter (fun it =>
          decide (it.link ≠ "" ∧ ∀ a ∈ articles, a.feedId = fid → a.link ≠ it.link)) := by
  unfold newItemsFor
  apply List.filter_congr
  intro it _
  rw [Bool.eq_iff_iff]
  simp only [Bool.and_eq_true, bne_iff_ne, ne_eq, Bool.not_eq_true',
    decide_eq_true_eq]
  constructor
  · rintro ⟨h1, h2⟩
    refine ⟨h1, ?_⟩
    intro a ha hfeed heq
    have hmem : it.link ∈ (List.filter (fun a => a.feedId == fid) articles).map
        (fun a => a.link) :=
      List.mem_map.mpr ⟨a, List.mem_filter.mpr ⟨ha, beq_iff_eq.mpr hfeed⟩, heq⟩
    rw [← contains_iff] at hmem
    rw [h2] at hmem
    cases hmem
  · rintro ⟨h1, h2⟩
    refine ⟨h1, ?_⟩
    rw [← Bool.not_eq_true, contains_iff]
    intro hmem
    obtain ⟨a, hafilter, halink⟩ := List.mem_map.mp hmem
    obtain ⟨ha, hafid⟩ := List.mem_filter.mp hafilter
    exact h2 a ha (beq_iff_eq.mp hafid) halink

theorem enumArticles_pairs (feed : Feed) (assign : Nat × ParsedItem → String)
    (now : String) (items : List ParsedItem) :
    (items.enum.map (fun p => mkArticle feed (assign p) now p.2)).map
        (fun a => (a.feedId, a.link))
      = items.map (fun it => (feed.id, it.link)) := by
  rw [List.map_map]
  rw [show ((fun a : Article => (a.feedId, a.link)) ∘
      fun p : Nat × ParsedItem => mkArticle feed (assign p) now p.2)
    = (fun it : ParsedItem => (feed.id, it.link)) ∘ Prod.snd from rfl]
  rw [← List.map_map, List.enum_map_snd]

theorem mem_added_of_qualifies (articles : List Article) (fid : String)
    (feed : Feed) (assign : Nat × ParsedItem → String) (now : String)
    (items : List ParsedItem) (it : ParsedItem)
    (hit : it ∈ items) (hlink : it.link ≠ "")
    (hscope : ∀ a ∈ articles, a.feedId = fid → a.link ≠ it.link) :
    ∃ a ∈ (newItemsFor articles fid items).enum.map
        (fun p => mkArticle feed (assign p) now p.2),
      a.feedId = feed.id ∧ a.link = it.link := by
  have hmem : it ∈ newItemsFor articles fid items := by
    rw [newItemsFor_eq_filter]
    exact List.mem_filter.mpr ⟨hit, by
      simp only [decide_eq_true_eq]
      exact ⟨hlink, hscope⟩⟩
  have hpair : (feed.id, it.link) ∈ ((newItemsFor articles fid items).enum.map
      (fun p => mkArticle feed (assign p) now p.2)).map (fun a => (a.feedId, a.link)) := by
    rw [enumArticles_pairs]
    exact List.mem_map.mpr ⟨it, hmem, rfl⟩
  obtain ⟨a, ha, heq⟩ := List.mem_map.mp hpair
  obtain ⟨h1, h2⟩ := Prod.mk.injEq .. ▸ heq
  exact ⟨a, ha, h1, h2⟩

theorem refreshFeed_merge (fetchParse : String → Except String ParsedFeed)
    (genId : Nat → String) (now feedId : String) (s : Store) (feed : Feed)
    (parsedFeed : ParsedFeed)
    (hfind : s.feeds.find? (fun f => f.id == feedId) = some feed)
    (hok : fetchParse feed.url = .ok parsedFeed) :
    let added := (newItemsFor s.articles feedId parsedFeed.items).enum.map
      (fun p => mkArticle feed (genId p.1) now p.2)
    (handleRefreshFeed fetchParse genId now feedId s).2.articles = s.articles ++ added ∧
    (handleRefreshFeed fetchParse genId now feedId s).1 = .ok added.length ∧
    newItemsFor s.articles feedId parsedFeed.items
      = parsedFeed.items.filter (fun it =>
          decide (it.link ≠ "" ∧ ∀ a ∈ s.articles, a.feedId = feedId → a.link ≠ it.link)) ∧
    added.map (fun a => (a.feedId, a.link))
      = (newItemsFor s.articles feedId parsedFeed.items).map (fun it => (feed.id, it.link)) ∧
    (∀ it ∈ parsedFeed.items, it.link ≠ "" →
      (∀ a ∈ s.articles, a.feedId = feedId → a.link ≠ it.link) →
      ∃ a ∈ added, a.feedId = feed.id ∧ a.link = it.link) := by
  intro added
  have hresult : handleRefreshFeed fetchParse genId now feedId s
      = (.ok added.length,
          { s with
            feeds := updateFirst (fun f => f.id == feedId)
              (fun f => { f with lastFetched := now }) s.feeds,
            articles := s.articles ++ added }) := by
    unfold handleRefreshFeed
    rw [hfind]
    dsimp only
    rw [hok]
    dsimp only
    rw [append_if_nonempty]
  refine ⟨by rw [hresult], by rw [hresult],
    newItemsFor_eq_filter s.articles feedId parsedFeed.items,
    enumArticles_pairs feed (fun q => genId q.1) now
      (newItemsFor s.articles feedId parsedFeed.items), ?_⟩
  intro it hit hlink hscope
  exact mem_added_of_qualifies s.articles feedId feed (fun q => genId q.1) now
    parsedFeed.items it hit hlink hscope

/-- C4 witness: the merge characterization applied to a one-feed store
with an empty article collection and a single parsed item. -/
theorem refreshFeed_merge_witness :
    (storeOne.feeds.find? (fun f => f.id == "f1") = some feed1) ∧
    (handleRefreshFeed (fun _ => .ok pf1) (fun _ => "a1") "2024-06-01T00:00:00Z" "f1"
      storeOne).2.articles
      = storeOne.articles ++ (newItemsFor storeOne.articles "f1" pf1.items).enum.map
          (fun p => mkArticle feed1 "a1" "2024-06-01T00:00:00Z" p.2) :=
  ⟨rfl, (refreshFeed_merge (fun _ => .ok pf1) (fun _ => "a1") "2024-06-01T00:00:00Z"
    "f1" storeOne feed1 pf1 rfl rfl).1⟩

/-- C5: deleting a registered feed succeeds and cascades — afterwards no
article with that `feedId` remains and no id of a removed article remains
in the starred set (the worker keeps no separate read-id set; read state
is only the per-article boolean, so no read-id collection can retain such
an id); deleting an id that belongs to no feed answers `NotFoundError`
and leaves all collections unchanged. -/
theorem deleteFeed_cascade (feedId : String) (s : Store) :
    ((∃ feed ∈ s.feeds, feed.id = feedId) →
      (handleDeleteFeed feedId s).1 = .success ∧
      (∀ a ∈ (handleDeleteFeed feedId s).2.articles, a.feedId ≠ feedId) ∧
      (∀ a ∈ s.articles, a.feedId = feedId →
        a.id ∉ (handleDeleteFeed feedId s).2.starred)) ∧
    ((∀ feed ∈ s.feeds, feed.id ≠ feedId) →
      handleDeleteFeed feedId s = (.notFound, s)) := by
  constructor
  · rintro ⟨feed, hfeed, hid⟩
    have hall : s.feeds.all (fun f => !(f.id == feedId)) = false := by
      rw [Bool.eq_false_iff]
      intro hc
      have := List.all_eq_true.mp hc feed hfeed
      simp [hid] at this
    unfold handleDeleteFeed
    rw [hall, if_neg (by simp)]
    refine ⟨rfl, ?_, ?_⟩
    · intro a ha
      have := (List.mem_filter.mp ha).2
      simpa using this
    · intro a ha hafid hmem
      have hpred := (List.mem_filter.mp hmem).2
      rw [Bool.not_eq_true'] at hpred
      have hin : a.id ∈ (List.filter (fun a => a.feedId == feedId) s.articles).map
          (fun a => a.id) :=
        List.mem_map.mpr ⟨a, List.mem_filter.mpr ⟨ha, beq_iff_eq.mpr hafid⟩, rfl⟩
      rw [← contains_iff] at hin
      rw [hpred] at hin
      cases hin
  · intro hnone
    have hall : s.feeds.all (fun f => !(f.id == feedId)) = true := by
      rw [List.all_eq_true]
      intro f hf
      simpa using hnone f hf
    unfold handleDeleteFeed
    rw [hall, if_pos rfl]

/-- C5 witness: cascade applied to a two-feed store (feed `f1` deleted:
its article and star pruned), and not-found applied to an unknown id. -/
theorem deleteFeed_cascade_witness :
    ((∃ feed ∈ storeTwo.feeds, feed.id = "f1") ∧
      (∀ a ∈ storeTwo.articles, a.feedId = "f1" →
        a.id ∉ (handleDeleteFeed "f1" storeTwo).2.starred)) ∧
    ((∀ feed ∈ storeTwo.feeds, feed.id ≠ "zzz") ∧
      handleDeleteFeed "zzz" storeTwo = (.notFound, storeTwo)) :=
  ⟨⟨⟨feed1, by decide, rfl⟩,
      ((deleteFeed_cascade "f1" storeTwo).1 ⟨feed1, by decide, rfl⟩).2.2⟩,
    ⟨by decide, (deleteFeed_cascade "zzz" storeTwo).2 (by decide)⟩⟩

theorem refreshFeed_run_eq (fetchParse : String → Except String ParsedFeed)
    (genId : Nat → String) (now feedId : String) (s : Store) (feed : Feed)
    (parsedFeed : ParsedFeed)
    (hfind : s.feeds.find? (fun f => f.id == feedId) = some feed)
    (hok : fetchParse feed.url = .ok parsedFeed) :
    handleRefreshFeed fetchParse genId now feedId s
      = (.ok ((newItemsFor s.articles feedId parsedFeed.items).enum.map
            (fun p => mkArticle feed (genId p.1) now p.2)).length,
        { s with
          feeds := updateFirst (fun f => f.id == feedId)
            (fun f => { f with lastFetched := now }) s.feeds,
          articles := s.articles ++ (newItemsFor s.articles feedId parsedFeed.items).enum.map
            (fun p => mkArticle feed (genId p.1) now p.2) }) := by
  unfold handleRefreshFeed
  rw [hfind]
  dsimp only
  rw [hok]
  dsimp only
  rw [append_if_nonempty]

/-- C3: refreshing the same feed twice against the same upstream body
(the fetch oracle answers the same parsed feed both times) makes the
second refresh report zero new articles and leave the article collection
exactly as the first refresh left it. -/
theorem refresh_idempotent (fetchParse : String → Except String ParsedFeed)
    (genId genId2 : Nat → String) (now now2 feedId : String) (s : Store)
    (feed : Feed) (parsedFeed : ParsedFeed)
    (hfind : s.feeds.find? (fun f => f.id == feedId) = some feed)
    (hok : fetchParse feed.url = .ok parsedFeed) :
    ∀ n s1, handleRefreshFeed fetchParse genId now feedId s = (.ok n, s1) →
      ∃ s2, handleRefreshFeed fetchParse genId2 now2 feedId s1 = (.ok 0, s2) ∧
        s2.articles = s1.articles := by
  intro n s1 hrun
  obtain ⟨hpa, pre, post, hsplit, hpre⟩ := find?_eq_some_split hfind

  have hrun' := refreshFeed_run_eq fetchParse genId now feedId s feed parsedFeed hfind hok
  rw [hrun] at hrun'
  have hs1 := congrArg Prod.snd hrun'
  dsimp only at hs1
  have hfeeds1 : s1.feeds = pre ++ { feed with lastFetched := now } :: post := by
    rw [hs1]
    dsimp only
    rw [hsplit]
    exact updateFirst_append_cons hpre hpa
  have harts1 : s1.articles = s.articles ++ (newItemsFor s.articles feedId
      parsedFeed.items).enum.map (fun p => mkArticle feed (genId p.1) now p.2) := by
    rw [hs1]
  have hfind2 : s1.feeds.find? (fun f => f.id == feedId)
      = some { feed with lastFetched := now } := by
    rw [hfeeds1]
    exact find?_append_cons hpre hpa
  have hok2 : fetchParse ({ feed with lastFetched := now } : Feed).url = .ok parsedFeed := hok
  have hempty : newItemsFor s1.articles feedId parsedFeed.items = [] := by
    unfold newItemsFor
    rw [List.filter_eq_nil_iff]
    intro it hit hcontra
    rw [Bool.and_eq_true] at hcontra
    obtain ⟨hl, hnc⟩ := hcontra
    rw [bne_iff_ne] at hl
    rw [Bool.not_eq_true'] at hnc
    have hmem : it.link ∈ (s1.articles.filter (fun a => a.feedId == feedId)).map
        (fun a => a.link) := by
      by_cases hscope : ∀ a ∈ s.articles, a.feedId = feedId → a.link ≠ it.link
      · obtain ⟨a, haAdded, hafid, halink⟩ := mem_added_of_qualifies s.articles feedId
          feed (fun q => genId q.1) now parsedFeed.items it hit hl hscope
        refine List.mem_map.mpr ⟨a, List.mem_filter.mpr ⟨?_, ?_⟩, halink⟩
        · rw [harts1]
          exact List.mem_append_right _ haAdded
        · rw [hafid]
          exact hpa
      · push_neg at hscope
        obtain ⟨a, ha, hafid, halink⟩ := hscope
        refine List.mem_map.mpr ⟨a, List.mem_filter.mpr ⟨?_, beq_iff_eq.mpr hafid⟩, halink⟩
        rw [harts1]
        exact List.mem_append_left _ ha
    rw [← contains_iff] at hmem
    rw [hnc] at hmem
    cases hmem
  refine ⟨{ s1 with
    feeds := updateFirst (fun f => f.id == feedId)
        (fun f => { f with lastFetched := now2 }) s1.feeds }, ?_, rfl⟩
  have hrun2 := refreshFeed_run_eq fetchParse genId2 now2 feedId s1
    { feed with lastFetched := now } parsedFeed hfind2 hok2
  rw [hempty] at hrun2
  simpa using hrun2

/-- C3 witness: adding nothing on the second refresh of a one-feed store
whose upstream body repeats the same single item. -/
theorem refresh_idempotent_witness :
    (storeOne.feeds.find? (fun f => f.id == "f1") = some feed1) ∧
    (∃ s2, handleRefreshFeed (fun _ => .ok pf1) (fun _ => "b1") "2024-06-02T00:00:00Z" "f1"
        (handleRefreshFeed (fun _ => .ok pf1) (fun _ => "a1") "2024-06-01T00:00:00Z" "f1"
          storeOne).2
      = (.ok 0, s2) ∧
      s2.articles = (handleRefreshFeed (fun _ => .ok pf1) (fun _ => "a1")
        "2024-06-01T00:00:00Z" "f1" storeOne).2.articles) :=
  ⟨rfl, refresh_idempotent (fun _ => .ok pf1) (fun _ => "a1") (fun _ => "b1")
    "2024-06-01T00:00:00Z" "2024-06-02T00:00:00Z" "f1" storeOne feed1 pf1 rfl rfl 1 _ rfl⟩

theorem refreshAllGo_results (fetchParse : String → Except String ParsedFeed)
    (genId : Nat → String) (now : String) :
    ∀ (feeds : List Feed) (articles : List Article) (k : Nat),
      (refreshAllGo fetchParse genId now feeds articles k).2.2.length = feeds.length ∧
      ∀ (i : Nat) (feed : Feed), feeds[i]? = some feed →
        ∃ r, (refreshAllGo fetchParse genId now feeds articles k).2.2[i]? = some r ∧
          ((∃ msg, fetchParse feed.url = .error msg ∧
              r = .failure feed.id feed.name msg) ∨
           (∃ parsedFeed, fetchParse feed.url = .ok parsedFeed ∧
              ∃ c, r = .success feed.id feed.name c)) := by
  intro feeds
  induction feeds with
  | nil =>
    intro articles k
    constructor
    · rfl
    · intro i feed hi
      simp at hi
  | cons feed rest ih =>
    intro articles k
    unfold refreshAllGo
    cases hf : fetchParse feed.url with
    | error msg =>
      dsimp only
      constructor
      · simpa using (ih articles k).1
      · intro i fd hi
        cases i with
        | zero =>
          rw [List.getElem?_cons_zero] at hi
          cases hi
          exact ⟨.failure feed.id feed.name msg, by simp, Or.inl ⟨msg, hf, rfl⟩⟩
        | succ n =>
          rw [List.getElem?_cons_succ] at hi
          obtain ⟨r, hr, hshape⟩ := (ih articles k).2 n fd hi
          exact ⟨r, by simpa using hr, hshape⟩
    | ok parsedFeed =>
      dsimp only
      constructor
      · simpa using (ih _ _).1
      · intro i fd hi
        cases i with
        | zero =>
          rw [List.getElem?_cons_zero] at hi
          cases hi
          refine ⟨.success feed.id feed.name ((newItemsFor articles feed.id
            parsedFeed.items).enum.map
              (fun p => mkArticle feed (genId (k + p.1)) now p.2)).length,
            by simp, Or.inr ⟨parsedFeed, hf, _, rfl⟩⟩
        | succ n =>
          rw [List.getElem?_cons_succ] at hi
          obtain ⟨r, hr, hshape⟩ := (ih _ _).2 n fd hi
          exact ⟨r, by simpa using hr, hshape⟩

/-- C7: `handleRefreshAll` returns exactly one result entry per
registered feed, at the index of that feed in the registry (feed
registration order); the entry is `{feedId, name, newArticles}` when that
feed's fetch+parse succeeds and `{feedId, name, error}` when it throws,
and a throw in one feed never removes another feed's entry — the whole
call always produces the full list. -/
theorem refreshAll_results (fetchParse : String → Except String ParsedFeed)
    (genId : Nat → String) (now : String) (s : Store) :
    (handleRefreshAll fetchParse genId now s).1.length = s.feeds.length ∧
    ∀ (i : Nat) (feed : Feed), s.feeds[i]? = some feed →
      ∃ r, (handleRefreshAll fetchParse genId now s).1[i]? = some r ∧
        ((∃ msg, fetchParse feed.url = .error msg ∧
            r = .failure feed.id feed.name msg) ∨
         (∃ parsedFeed, fetchParse feed.url = .ok parsedFeed ∧
            ∃ c, r = .success feed.id feed.name c)) := by
  unfold handleRefreshAll
  exact refreshAllGo_results fetchParse genId now s.feeds s.articles 0

/-- C7 witness: with two registered feeds whose second fetch throws, the
second result entry still exists (at index 1) and records the error. -/
theorem refreshAll_results_witness :
    (storeTwo.feeds[1]? = some feed2) ∧
    (∃ r, (handleRefreshAll fetchOneOk (fun _ => "c") "2024-06-01T00:00:00Z"
        storeTwo).1[1]? = some r ∧
      ((∃ msg, fetchOneOk feed2.url = .error msg ∧
          r = .failure feed2.id feed2.name msg) ∨
       (∃ parsedFeed, fetchOneOk feed2.url = .ok parsedFeed ∧
          ∃ c, r = .success feed2.id feed2.name c))) :=
  ⟨rfl, (refreshAll_results fetchOneOk (fun _ => "c") "2024-06-01T00:00:00Z"
    storeTwo).2 1 feed2 rfl⟩

/-- C8: `handleGetArticles` returns a permutation of exactly the stored
articles matching the optional filters, each annotated with a `starred`
boolean equal to its membership in the starred id set, and the output is
non-increasing in `timeOf date` (newest first).  Soundness and
completeness of the filters are stated logically: an output row exists
for an article iff it passes the feed filter (when a non-empty `feedId`
query is present) and the starred filter (when `starred=true` is
present). -/
theorem getArticles_spec (timeOf : String → Int)
    (feedIdParam starredParam : Option String) (s : Store) :
    (handleGetArticles timeOf feedIdParam starredParam s).Perm
      (annotateStar (setOfList s.starred)
        (applyStarFilter starredParam (setOfList s.starred)
          (applyFeedFilter feedIdParam s.articles))) ∧
    (handleGetArticles timeOf feedIdParam starredParam s).Pairwise
      (fun a b => timeOf b.date ≤ timeOf a.date) ∧
    (∀ v ∈ handleGetArticles timeOf feedIdParam starredParam s,
      v.toArticle ∈ s.articles ∧
      (v.starred = true ↔ v.id ∈ s.starred) ∧
      (∀ fid, feedIdParam = some fid → fid ≠ "" → v.feedId = fid) ∧
      (starredParam = some "true" → v.id ∈ s.starred)) ∧
    (∀ a ∈ s.articles,
      (∀ fid, feedIdParam = some fid → fid ≠ "" → a.feedId = fid) →
      (starredParam = some "true" → a.id ∈ s.starred) →
      ({ toArticle := a, starred := (setOfList s.starred).contains a.id : StarredArticle })
        ∈ handleGetArticles timeOf feedIdParam starredParam s) := by
  have hperm := List.mergeSort_perm
    (annotateStar (setOfList s.starred)
      (applyStarFilter starredParam (setOfList s.starred)
        (applyFeedFilter feedIdParam s.articles)))
    (fun a b => decide (timeOf b.date ≤ timeOf a.date))
  have hsorted : (handleGetArticles timeOf feedIdParam starredParam s).Pairwise
      (fun a b => timeOf b.date ≤ timeOf a.date) := by
    have := @List.sorted_mergeSort StarredArticle
      (fun (a b : StarredArticle) => decide (timeOf b.date ≤ timeOf a.date))
      (fun a b c h1 h2 => by
        simp only [decide_eq_true_eq] at h1 h2 ⊢
        exact le_trans h2 h1)
      (fun a b => by
        simp only [Bool.or_eq_true, decide_eq_true_eq]
        exact Int.le_total _ _)
      (annotateStar (setOfList s.starred)
        (applyStarFilter starredParam (setOfList s.starred)
          (applyFeedFilter feedIdParam s.articles)))
    exact this.imp (fun h => by simpa using h)
  have hmemFiltered1 : ∀ a : Article, a ∈ applyFeedFilter feedIdParam s.articles →
      a ∈ s.articles ∧ (∀ fid, feedIdParam = some fid → fid ≠ "" → a.feedId = fid) := by
    intro a ha
    unfold applyFeedFilter at ha
    cases hfp : feedIdParam with
    | none =>
      rw [hfp] at ha
      dsimp only at ha
      exact ⟨ha, by intro fid h; cases h⟩
    | some fid =>
      rw [hfp] at ha
      dsimp only at ha
      by_cases hne : fid ≠ ""
      · rw [if_pos hne] at ha
        obtain ⟨ha', hpred⟩ := List.mem_filter.mp ha
        refine ⟨ha', ?_⟩
        intro fid' heq _
        cases heq
        exact beq_iff_eq.mp hpred
      · rw [if_neg hne] at ha
        refine ⟨ha, ?_⟩
        intro fid' heq hne'
        cases heq
        exact absurd hne' hne
  have hmemFiltered2 : ∀ (l : List Article) (a : Article),
      a ∈ applyStarFilter starredParam (setOfList s.starred) l →
      a ∈ l ∧ (starredParam = some "true" → a.id ∈ s.starred) := by
    intro l a ha
    unfold applyStarFilter at ha
    by_cases hsp : (starredParam == some "true") = true
    · rw [if_pos hsp] at ha
      obtain ⟨ha', hpred⟩ := List.mem_filter.mp ha
      exact ⟨ha', fun _ => (mem_setOfList _ _).mp ((contains_iff _ _).mp hpred)⟩
    · rw [if_neg hsp] at ha
      refine ⟨ha, ?_⟩
      intro heq
      exact absurd (beq_iff_eq.mpr heq) hsp
  refine ⟨hperm, hsorted, ?_, ?_⟩
  · intro v hv
    have hv' := hperm.mem_iff.mp hv
    obtain ⟨a, ha2, hva⟩ := List.mem_map.mp hv'
    obtain ⟨ha1, hstarOk⟩ := hmemFiltered2 _ a ha2
    obtain ⟨haS, hfeedOk⟩ := hmemFiltered1 a ha1
    subst hva
    refine ⟨haS, ?_, hfeedOk, hstarOk⟩
    constructor
    · intro h
      exact (mem_setOfList _ _).mp ((contains_iff _ _).mp h)
    · intro h
      exact (contains_iff _ _).mpr ((mem_setOfList _ _).mpr h)
  · intro a haS hfeed hstar
    have ha1 : a ∈ applyFeedFilter feedIdParam s.articles := by
      unfold applyFeedFilter
      cases hfp : feedIdParam with
      | none => exact haS
      | some fid =>
        dsimp only
        by_cases hne : fid ≠ ""
        · rw [if_pos hne]
          exact List.mem_filter.mpr ⟨haS, beq_iff_eq.mpr (hfeed fid hfp hne)⟩
        · rw [if_neg hne]
          exact haS
    have ha2 : a ∈ applyStarFilter starredParam (setOfList s.starred)
        (applyFeedFilter feedIdParam s.articles) := by
      unfold applyStarFilter
      by_cases hsp : (starredParam == some "true") = true
      · rw [if_pos hsp]
        exact List.mem_filter.mpr ⟨ha1,
          (contains_iff _ _).mpr ((mem_setOfList _ _).mpr (hstar (beq_iff_eq.mp hsp)))⟩
      · rw [if_neg hsp]
        exact ha1
    have hanno : ({ toArticle := a, starred := (setOfList s.starred).contains a.id :
        StarredArticle }) ∈ annotateStar (setOfList s.starred)
          (applyStarFilter starredParam (setOfList s.starred)
            (applyFeedFilter feedIdParam s.articles)) :=
      List.mem_map.mpr ⟨a, ha2, rfl⟩
    exact hperm.mem_iff.mpr hanno

/-- C8 witness: with the feed filter `f1` and no starred filter on the
two-feed store, the row for feed one's article (which is starred) appears
in the output. -/
theorem getArticles_spec_witness :
    (art1 ∈ storeTwo.articles) ∧
    ({ toArticle := art1, starred := (setOfList storeTwo.starred).contains art1.id :
        StarredArticle } ∈ handleGetArticles (fun _ => 0) (some "f1") none storeTwo) :=
  ⟨by decide, (getArticles_spec (fun _ => 0) (some "f1") none storeTwo).2.2.2 art1
    (by decide)
    (by
      intro fid h hne
      cases h
      rfl)
    (by intro h; cases h)⟩

theorem mem_eraseP_of_not {α : Type} {p : α → Bool} {l : List α} {a : α}
    (ha : a ∈ l) (hpa : p a = false) : a ∈ l.eraseP p := by
  induction l with
  | nil => cases ha
  | cons x xs ih =>
    rw [List.eraseP_cons]
    rcases List.mem_cons.mp ha with rfl | ha'
    · rw [hpa]
      exact List.mem_cons_self _ _
    · by_cases hx : p x = true
      · rw [hx]
        exact ha'
      · rw [Bool.eq_false_iff.mpr hx]
        exact List.mem_cons_of_mem _ (ih ha')

theorem linksOf_append (xs ys : List Article) (fid : String) :
    linksOf (xs ++ ys) fid = linksOf xs fid ++ linksOf ys fid := by
  unfold linksOf
  rw [List.filter_append, List.map_append]

theorem linksOf_sublist {xs ys : List Article} (h : List.Sublist xs ys) (fid : String) :
    List.Sublist (linksOf xs fid) (linksOf ys fid) :=
  (h.filter _).map _

theorem enumArticles_mem {feed : Feed} {assign : Nat × ParsedItem → String} {now : String}
    {items : List ParsedItem} {a : Article}
    (ha : a ∈ items.enum.map (fun p => mkArticle feed (assign p) now p.2)) :
    ∃ id it, it ∈ items ∧ a = mkArticle feed id now it := by
  obtain ⟨p, hp, rfl⟩ := List.mem_map.mp ha
  refine ⟨assign p, p.2, ?_, rfl⟩
  have := List.enum_map_snd items
  exact this ▸ List.mem_map.mpr ⟨p, hp, rfl⟩

theorem enumArticles_links (feed : Feed) (assign : Nat × ParsedItem → String) (now : String)
    (items : List ParsedItem) :
    (items.enum.map (fun p => mkArticle feed (assign p) now p.2)).map (fun a => a.link)
      = items.map (fun it => it.link) := by
  rw [List.map_map]
  rw [show ((fun a : Article => a.link) ∘
      fun p : Nat × ParsedItem => mkArticle feed (assign p) now p.2)
    = (fun it : ParsedItem => it.link) ∘ Prod.snd from rfl]
  rw [← List.map_map, List.enum_map_snd]

theorem linksOf_enumArticles_self (feed : Feed) (assign : Nat × ParsedItem → String)
    (now : String) (items : List ParsedItem) :
    linksOf (items.enum.map (fun p => mkArticle feed (assign p) now p.2)) feed.id
      = items.map (fun it => it.link) := by
  unfold linksOf
  rw [List.filter_eq_self.mpr, enumArticles_links]
  intro a ha
  obtain ⟨id, it, hit, rfl⟩ := enumArticles_mem ha
  exact beq_iff_eq.mpr rfl

theorem linksOf_enumArticles_other (feed : Feed) (assign : Nat × ParsedItem → String)
    (now : String) (items : List ParsedItem) (fid : String) (h : fid ≠ feed.id) :
    linksOf (items.enum.map (fun p => mkArticle feed (assign p) now p.2)) fid = [] := by
  unfold linksOf
  rw [List.filter_eq_nil_iff.mpr]
  · rfl
  · intro a ha hpred
    obtain ⟨id, it, hit, rfl⟩ := enumArticles_mem ha
    exact h (beq_iff_eq.mp hpred).symm

theorem merge_preserves_dedup (articles : List Article) (feed : Feed)
    (assign : Nat × ParsedItem → String) (now : String) (items : List ParsedItem)
    (hInv : ∀ fid, (linksOf articles fid).Nodup)
    (hnodup : (items.map (fun it => it.link)).Nodup)
    (hfresh : ∀ it ∈ items, it.link ∉ linksOf articles feed.id) :
    ∀ fid, (linksOf (articles ++ items.enum.map
      (fun p => mkArticle feed (assign p) now p.2)) fid).Nodup := by
  intro fid
  rw [linksOf_append]
  by_cases hfid : fid = feed.id
  · subst hfid
    rw [linksOf_enumArticles_self]
    refine (hInv feed.id).append hnodup ?_
    intro x hx1 hx2
    obtain ⟨it, hit, rfl⟩ := List.mem_map.mp hx2
    exact hfresh it hit hx1
  · rw [linksOf_enumArticles_other _ _ _ _ _ hfid]
    simpa using hInv fid

theorem newItemsFor_not_mem (articles : List Article) (fid : String)
    (items : List ParsedItem) :
    ∀ it ∈ newItemsFor articles fid items, it.link ∉ linksOf articles fid := by
  intro it hit hmem
  unfold newItemsFor at hit
  have h2 := (List.mem_filter.mp hit).2
  rw [Bool.and_eq_true] at h2
  have h3 := h2.2
  rw [Bool.not_eq_true'] at h3
  unfold linksOf at hmem
  rw [← contains_iff] at hmem
  rw [h3] at hmem
  cases hmem

theorem newItemsFor_links_nodup (articles : List Article) (fid : String)
    (items : List ParsedItem)
    (h : (items.map (fun it => it.link)).Nodup) :
    ((newItemsFor articles fid items).map (fun it => it.link)).Nodup := by
  unfold newItemsFor
  exact List.Nodup.sublist ((List.filter_sublist _).map _) h

theorem updateFirst_map {α β : Type} (p : α → Bool) (g : α → α) (f : α → β)
    (hf : ∀ x, f (g x) = f x) : ∀ l : List α, (updateFirst p g l).map f = l.map f := by
  intro l
  induction l with
  | nil => rfl
  | cons x xs ih =>
    unfold updateFirst
    by_cases hx : p x = true
    · rw [if_pos hx]
      simp [hf]
    · rw [if_neg hx]
      simp only [List.map_cons, ih]

theorem toggleStar_state (articleId : String) (s : Store) :
    (handleToggleStar articleId s).2.articles = s.articles ∧
    (handleToggleStar articleId s).2.feeds = s.feeds := by
  unfold handleToggleStar
  by_cases h : (setOfList s.starred).contains articleId = true
  · rw [if_pos h]
    exact ⟨rfl, rfl⟩
  · rw [if_neg h]
    exact ⟨rfl, rfl⟩

theorem deleteFeed_state_cases (feedId : String) (s : Store) :
    (handleDeleteFeed feedId s).2 = s ∨
    (handleDeleteFeed feedId s).2
      = { feeds := s.feeds.eraseP (fun f => f.id == feedId),
          articles := s.articles.filter (fun a => !(a.feedId == feedId)),
          starred := s.starred.filter (fun id =>
            !(((s.articles.filter (fun a => a.feedId == feedId)).map
              (fun a => a.id)).contains id)) } := by
  unfold handleDeleteFeed
  by_cases h : s.feeds.all (fun f => !(f.id == feedId)) = true
  · rw [if_pos h]
    exact Or.inl rfl
  · rw [if_neg h]
    exact Or.inr rfl

theorem addFeed_state_cases (fetch : String → Except String ParsedFeed)
    (urlHost : Option String) (newFeedId : String) (genId : Nat → String)
    (now url name : String) (s : Store) :
    (handleAddFeed fetch urlHost newFeedId genId now url name s).2 = s ∨
    ∃ host p, urlHost = some host ∧ fetch url = .ok p ∧
      (handleAddFeed fetch urlHost newFeedId genId now url name s).2
        = { s with
            feeds := s.feeds ++ [newFeedOf newFeedId name p.title host url now],
            articles := s.articles ++ p.items.enum.map (fun q => mkArticle
              (newFeedOf newFeedId name p.title host url now) (genId q.1) now q.2) } := by
  unfold handleAddFeed
  by_cases h1 : url = ""
  · rw [if_pos h1]
    exact Or.inl rfl
  · rw [if_neg h1]
    cases h2 : urlHost with
    | none => exact Or.inl rfl
    | some host =>
      dsimp only
      by_cases h3 : s.feeds.any (fun f => f.url == url) = true
      · rw [if_pos h3]
        exact Or.inl rfl
      · rw [if_neg h3]
        cases h4 : fetch url with
        | error msg => exact Or.inl rfl
        | ok p =>
          dsimp only
          exact Or.inr ⟨host, p, rfl, rfl, rfl⟩

theorem refreshFeed_state_cases (fetch : String → Except String ParsedFeed)
    (genId : Nat → String) (now feedId : String) (s : Store) :
    (handleRefreshFeed fetch genId now feedId s).2 = s ∨
    ∃ feed p, s.feeds.find? (fun f => f.id == feedId) = some feed ∧
      fetch feed.url = .ok p ∧
      (handleRefreshFeed fetch genId now feedId s).2
        = { s with
            feeds := updateFirst (fun f => f.id == feedId)
              (fun f => { f with lastFetched := now }) s.feeds,
            articles := s.articles ++ (newItemsFor s.articles feedId p.items).enum.map
              (fun q => mkArticle feed (genId q.1) now q.2) } := by
  cases hf : s.feeds.find? (fun f => f.id == feedId) with
  | none =>
    unfold handleRefreshFeed
    rw [hf]
    exact Or.inl rfl
  | some feed =>
    cases hp : fetch feed.url with
    | error msg =>
      unfold handleRefreshFeed
      rw [hf]
      dsimp only
      rw [hp]
      exact Or.inl rfl
    | ok p =>
      refine Or.inr ⟨feed, p, rfl, hp, ?_⟩
      rw [refreshFeed_run_eq fetch genId now feedId s feed p hf hp]

theorem refreshAllGo_preserves (fetch : String → Except String ParsedFeed)
    (genId : Nat → String) (now : String) :
    ∀ (feeds : List Feed) (articles : List Article) (k : Nat),
      (∀ fid, (linksOf articles fid).Nodup) →
      feeds.all (fun feed => fetchLinksNodup fetch feed.url) = true →
      (∀ fid, (linksOf (refreshAllGo fetch genId now feeds articles k).2.1 fid).Nodup) ∧
      (refreshAllGo fetch genId now feeds articles k).1.map Feed.id = feeds.map Feed.id ∧
      (∀ a ∈ (refreshAllGo fetch genId now feeds articles k).2.1,
        a ∈ articles ∨ ∃ feed ∈ feeds, ∃ id t it, a = mkArticle feed id t it) := by
  intro feeds
  induction feeds with
  | nil =>
    intro articles k hD _
    exact ⟨hD, rfl, fun a ha => Or.inl ha⟩
  | cons feed rest ih =>
    intro articles k hD hall
    rw [List.all_cons, Bool.and_eq_true] at hall
    obtain ⟨hhead, htail⟩ := hall
    unfold refreshAllGo
    cases hf : fetch feed.url with
    | error msg =>
      dsimp only
      obtain ⟨r1, r2, r3⟩ := ih articles k hD htail
      refine ⟨r1, ?_, ?_⟩
      · rw [List.map_cons, List.map_cons, r2]
      · intro a ha
        rcases r3 a ha with h | ⟨fd, hfd, hrest⟩
        · exact Or.inl h
        · exact Or.inr ⟨fd, List.mem_cons_of_mem _ hfd, hrest⟩
    | ok p =>
      dsimp only
      rw [append_if_nonempty]
      have hnodupLinks : (p.items.map (fun it => it.link)).Nodup := by
        unfold fetchLinksNodup at hhead
        rw [hf] at hhead
        rwa [decide_eq_true_eq] at hhead
      have hD2 : ∀ fid, (linksOf (articles ++
          (newItemsFor articles feed.id p.items).enum.map
            (fun p => mkArticle feed (genId (k + p.1)) now p.2)) fid).Nodup :=
        merge_preserves_dedup articles feed (fun q => genId (k + q.1)) now
          (newItemsFor articles feed.id p.items) hD
          (newItemsFor_links_nodup _ _ _ hnodupLinks)
          (newItemsFor_not_mem articles feed.id p.items)
      obtain ⟨r1, r2, r3⟩ := ih
        (articles ++ (newItemsFor articles feed.id p.items).enum.map
          (fun p => mkArticle feed (genId (k + p.1)) now p.2))
        (k + ((newItemsFor articles feed.id p.items).enum.map
          (fun p => mkArticle feed (genId (k + p.1)) now p.2)).length) hD2 htail
      refine ⟨r1, ?_, ?_⟩
      · rw [List.map_cons, List.map_cons, r2]
      · intro a ha
        rcases r3 a ha with h | ⟨fd, hfd, hrest⟩
        · rcases List.mem_append.mp h with h' | h'
          · exact Or.inl h'
          · obtain ⟨id, it, hit, rfl⟩ := enumArticles_mem h'
            exact Or.inr ⟨feed, List.mem_cons_self _ _, id, now, it, rfl⟩
        · exact Or.inr ⟨fd, List.mem_cons_of_mem _ hfd, hrest⟩

theorem stepInv (s : Store) (op : Op)
    (hInv : DedupInv s ∧ OwnedInv s) (hop : goodOp s op = true) :
    DedupInv (applyOp s op) ∧ OwnedInv (applyOp s op) := by
  have hDedup := hInv.1
  have hOwn := hInv.2.1
  have hIds := hInv.2.2
  cases op with
  | star articleId =>
    have hstate := toggleStar_state articleId s
    simp only [applyOp, DedupInv, OwnedInv]
    rw [hstate.1, hstate.2]
    exact ⟨hDedup, hOwn, hIds⟩
  | remove feedId =>
    rcases deleteFeed_state_cases feedId s with h | h
    · simp only [applyOp]
      rw [h]
      exact ⟨hDedup, hOwn, hIds⟩
    · simp only [applyOp, DedupInv, OwnedInv]
      rw [h]
      refine ⟨?_, ?_, ?_⟩
      · intro fid
        exact List.Nodup.sublist (linksOf_sublist (List.filter_sublist _) fid) (hDedup fid)
      · intro a ha
        dsimp only at ha ⊢
        obtain ⟨haS, hpred⟩ := List.mem_filter.mp ha
        rw [Bool.not_eq_true'] at hpred
        have hne : a.feedId ≠ feedId := by
          intro hEq
          rw [hEq] at hpred
          simp at hpred
        obtain ⟨f, hfmem, hfid⟩ := List.mem_map.mp (hOwn a haS)
        refine List.mem_map.mpr ⟨f, mem_eraseP_of_not hfmem ?_, hfid⟩
        rw [Bool.eq_false_iff]
        intro hc
        exact hne (hfid ▸ beq_iff_eq.mp hc)
      · dsimp only
        exact List.Nodup.sublist ((List.eraseP_sublist _).map _) hIds
  | add url name urlHost fetch newFeedId genId now =>
    simp only [goodOp] at hop
    rw [Bool.and_eq_true, decide_eq_true_eq] at hop
    obtain ⟨hfresh0, hfetch0⟩ := hop
    rcases addFeed_state_cases fetch urlHost newFeedId genId now url name s with
      h | ⟨host, p, hhost, hfok, h⟩
    · simp only [applyOp]
      rw [h]
      exact ⟨hDedup, hOwn, hIds⟩
    · simp only [applyOp, DedupInv, OwnedInv]
      rw [h]
      have hnodupLinks : (p.items.map (fun it => it.link)).Nodup := by
        unfold fetchLinksNodup at hfetch0
        rw [hfok] at hfetch0
        rwa [decide_eq_true_eq] at hfetch0
      refine ⟨?_, ?_, ?_⟩
      · intro fid
        dsimp only
        refine merge_preserves_dedup s.articles
          (newFeedOf newFeedId name p.title host url now) _ now p.items hDedup
          hnodupLinks ?_ fid
        intro it hit hmem
        unfold linksOf at hmem
        obtain ⟨a, hafil, -⟩ := List.mem_map.mp hmem
        obtain ⟨haS, hfid⟩ := List.mem_filter.mp hafil
        have hin := hOwn a haS
        rw [beq_iff_eq.mp hfid] at hin
        exact hfresh0 hin
      · intro a ha
        dsimp only at ha ⊢
        rw [List.map_append]
        rcases List.mem_append.mp ha with h' | h'
        · exact List.mem_append_left _ (hOwn a h')
        · refine List.mem_append_right _ ?_
          obtain ⟨id, it, hit, rfl⟩ := enumArticles_mem h'
          simp [newFeedOf, mkArticle]
      · dsimp only
        rw [List.map_append]
        refine hIds.append (by simp) ?_
        intro x hx1 hx2
        simp only [List.map_cons, List.map_nil, List.mem_singleton] at hx2
        rw [hx2] at hx1
        exact hfresh0 hx1
  | refresh feedId fetch genId now =>
    rcases refreshFeed_state_cases fetch genId now feedId s with
      h | ⟨feed, p, hf, hp, h⟩
    · simp only [applyOp]
      rw [h]
      exact ⟨hDedup, hOwn, hIds⟩
    · simp only [applyOp, DedupInv, OwnedInv]
      rw [h]
      have hfeedid : feed.id = feedId := by
        simpa using (find?_eq_some_split hf).1
      have hnodupLinks : (p.items.map (fun it => it.link)).Nodup := by
        simp only [goodOp] at hop
        rw [hf] at hop
        dsimp only at hop
        unfold fetchLinksNodup at hop
        rw [hp] at hop
        rwa [decide_eq_true_eq] at hop
      have hmapid : (updateFirst (fun f => f.id == feedId)
          (fun f => { f with lastFetched := now }) s.feeds).map Feed.id
            = s.feeds.map Feed.id :=
        updateFirst_map (fun f => f.id == feedId)
          (fun f => { f with lastFetched := now }) Feed.id (fun x => rfl) s.feeds
      refine ⟨?_, ?_, ?_⟩
      · intro fid
        dsimp only
        refine merge_preserves_dedup s.articles feed _ now
          (newItemsFor s.articles feedId p.items) hDedup
          (newItemsFor_links_nodup _ _ _ hnodupLinks) ?_ fid
        rw [hfeedid]
        exact newItemsFor_not_mem s.articles feedId p.items
      · intro a ha
        dsimp only at ha ⊢
        rw [hmapid]
        rcases List.mem_append.mp ha with h' | h'
        · exact hOwn a h'
        · obtain ⟨id, it, hit, rfl⟩ := enumArticles_mem h'
          exact List.mem_map.mpr ⟨feed, List.mem_of_find?_eq_some hf, rfl⟩
      · dsimp only
        rw [hmapid]
        exact hIds
  | refreshAll fetch genId now =>
    simp only [goodOp] at hop
    obtain ⟨r1, r2, r3⟩ := refreshAllGo_preserves fetch genId now s.feeds s.articles 0
      hDedup hop
    simp only [applyOp, handleRefreshAll, DedupInv, OwnedInv]
    refine ⟨r1, ?_, ?_⟩
    · intro a ha
      rw [r2]
      rcases r3 a ha with h | ⟨fd, hfd, id, t, it, rfl⟩
      · exact hOwn a h
      · exact List.mem_map.mpr ⟨fd, hfd, rfl⟩
    · rw [r2]
      exact hIds

theorem runOps_inv (ops : List Op) :
    ∀ s, DedupInv s ∧ OwnedInv s → goodRun s ops = true →
      DedupInv (runOps s ops) ∧ OwnedInv (runOps s ops) := by
  induction ops with
  | nil =>
    intro s h _
    exact h
  | cons op rest ih =>
    intro s h hg
    unfold goodRun at hg
    rw [Bool.and_eq_true] at hg
    exact ih _ (stepInv s op h hg.1) hg.2

/-- C1 counterexample: the dedup invariant fails on a reachable state.
Adding a feed whose fetched body contains two items with the same link
stores both articles (`handleAddFeed` maps every parsed item into an
article with no dedup), so the feed's stored links are not pairwise
distinct. -/
theorem dedup_invariant_fails :
    ¬ DedupInv (runOps Store.empty dupOps) := by
  intro h
  have h1 := h "f1"
  revert h1
  decide

/-- C1 (amended): the per-feed link-dedup invariant holds for every
reachable state, provided the run is benign: each `addFeed` generates a
feed id not already registered, and every fetched body processed by an
add or refresh has pairwise-distinct item links (the code dedups only
against already-stored articles, never within one fetched batch). -/
theorem dedup_invariant_holds (ops : List Op)
    (hgood : goodRun Store.empty ops = true) :
    DedupInv (runOps Store.empty ops) := by
  have hD : DedupInv Store.empty := by
    unfold DedupInv
    intro fid
    simp [linksOf, Store.empty]
  have hO : OwnedInv Store.empty := by
    unfold OwnedInv
    constructor
    · intro a ha
      cases ha
    · simp [Store.empty]
  exact (runOps_inv ops Store.empty ⟨hD, hO⟩ hgood).1

/-- C1 witness: a benign add-then-refresh run satisfies the side
conditions and the resulting store satisfies the dedup invariant. -/
theorem dedup_invariant_holds_witness :
    (goodRun Store.empty goodOpsW = true) ∧ DedupInv (runOps Store.empty goodOpsW) :=
  ⟨by decide, dedup_invariant_holds goodOpsW (by decide)⟩

theorem refreshAllGo_articles_origin (fetch : String → Except String ParsedFeed)
    (genId : Nat → String) (now : String) :
    ∀ (feeds : List Feed) (articles : List Article) (k : Nat),
      ∀ a ∈ (refreshAllGo fetch genId now feeds articles k).2.1,
        a ∈ articles ∨ ∃ feed id t it, a = mkArticle feed id t it := by
  intro feeds
  induction feeds with
  | nil =>
    intro articles k a ha
    exact Or.inl ha
  | cons feed rest ih =>
    intro articles k a ha
    unfold refreshAllGo at ha
    cases hf : fetch feed.url with
    | error msg =>
      rw [hf] at ha
      dsimp only at ha
      exact ih articles k a ha
    | ok p =>
      rw [hf] at ha
      dsimp only at ha
      rw [append_if_nonempty] at ha
      rcases ih _ _ a ha with h | h
      · rcases List.mem_append.mp h with h' | h'
        · exact Or.inl h'
        · obtain ⟨id, it, hit, rfl⟩ := enumArticles_mem h'
          exact Or.inr ⟨feed, id, now, it, rfl⟩
      · exact Or.inr h

theorem applyOp_read_false (s : Store) (op : Op)
    (h : ∀ a ∈ s.articles, a.read = false) :
    ∀ a ∈ (applyOp s op).articles, a.read = false := by
  cases op with
  | add url name urlHost fetch newFeedId genId now =>
    rcases addFeed_state_cases fetch urlHost newFeedId genId now url name s with
      heq | ⟨host, p, -, -, heq⟩
    · simp only [applyOp]
      rw [heq]
      exact h
    · simp only [applyOp]
      rw [heq]
      intro a ha
      dsimp only at ha
      rcases List.mem_append.mp ha with h' | h'
      · exact h a h'
      · obtain ⟨id, it, -, rfl⟩ := enumArticles_mem h'
        rfl
  | refresh feedId fetch genId now =>
    rcases refreshFeed_state_cases fetch genId now feedId s with
      heq | ⟨feed, p, -, -, heq⟩
    · simp only [applyOp]
      rw [heq]
      exact h
    · simp only [applyOp]
      rw [heq]
      intro a ha
      dsimp only at ha
      rcases List.mem_append.mp ha with h' | h'
      · exact h a h'
      · obtain ⟨id, it, -, rfl⟩ := enumArticles_mem h'
        rfl
  | refreshAll fetch genId now =>
    intro a ha
    simp only [applyOp, handleRefreshAll] at ha
    rcases refreshAllGo_articles_origin fetch genId now s.feeds s.articles 0 a ha with
      h' | ⟨feed, id, t, it, rfl⟩
    · exact h a h'
    · rfl
  | remove feedId =>
    rcases deleteFeed_state_cases feedId s with heq | heq
    · simp only [applyOp]
      rw [heq]
      exact h
    · simp only [applyOp]
      rw [heq]
      intro a ha
      exact h a (List.mem_filter.mp ha).1
  | star articleId =>
    intro a ha
    simp only [applyOp] at ha
    rw [(toggleStar_state articleId s).1] at ha
    exact h a ha

/-- C10: in every state reachable from the empty store by backend
operations, every stored article has `read = false`: each creating
handler (`handleAddFeed`, `handleRefreshFeed`, `handleRefreshAll`) builds
articles with `read: false`, and no operation modifies the `read` field
of an existing article — the route table exposes no read-toggle
endpoint. -/
theorem read_always_false (ops : List Op) :
    ∀ a ∈ (runOps Store.empty ops).articles, a.read = false := by
  have gen : ∀ (rest : List Op) (s : Store), (∀ a ∈ s.articles, a.read = false) →
      ∀ a ∈ (runOps s rest).articles, a.read = false := by
    intro rest
    induction rest with
    | nil =>
      intro s h
      exact h
    | cons op rest' ih =>
      intro s h
      exact ih _ (applyOp_read_false s op h)
  exact gen ops Store.empty (by intro a ha; cases ha)

/-- C10 witness: the article created by the duplicate-link add operation
is stored with `read = false`. -/
theorem read_always_false_witness :
    (mkArticle (newFeedOf "f1" "One" "One" "one.example" "http://one.example/rss"
        "2024-01-01T00:00:00Z") "aid" "2024-01-01T00:00:00Z" dupItem1
      ∈ (runOps Store.empty dupOps).articles) ∧
    (mkArticle (newFeedOf "f1" "One" "One" "one.example" "http://one.example/rss"
        "2024-01-01T00:00:00Z") "aid" "2024-01-01T00:00:00Z" dupItem1).read = false :=
  ⟨by decide, read_always_false dupOps _ (by decide)⟩

/-- C9: the feed parser is total — `parseFeed` is a function defined on
every input string, yielding a `{title, items}` record (it never
throws).  An input in which the item scanner recognizes no `<item>`
(RSS branch) or `<entry>` (Atom branch) block yields `items = []`; and a
refresh whose fetched body parses to zero items is a successful empty
refresh: `handleRefreshFeed` answers `{success, newArticles: 0}`, leaves
the article collection untouched, and only advances `lastFetched`. -/
theorem parseFeed_total_empty_refresh_ok (dp : DateOracle) (xml : String)
    (fetchBody : String → Except String String)
    (genId : Nat → String) (now feedId : String) (s : Store) (feed : Feed)
    (hfind : s.feeds.find? (fun f => f.id == feedId) = some feed)
    (hfetch : fetchBody feed.url = .ok xml) :
    (isAtomXml xml = false → scanBlocks "item".data xml.data.length xml.data = [] →
      (parseFeed dp xml).items = []) ∧
    (isAtomXml xml = true → scanBlocks "entry".data xml.data.length xml.data = [] →
      (parseFeed dp xml).items = []) ∧
    ((parseFeed dp xml).items = [] →
      handleRefreshFeed (fun u => (fetchBody u).map (parseFeed dp)) genId now feedId s
        = (.ok 0, { s with
            feeds := updateFirst (fun f => f.id == feedId)
                (fun f => { f with lastFetched := now }) s.feeds })) := by
  refine ⟨?_, ?_, ?_⟩
  · intro hAtom hEmpty
    unfold parseFeed
    rw [hAtom]
    simp only [Bool.false_eq_true, if_neg, not_false_iff]
    unfold parseRssFeed
    rw [hEmpty]
    rfl
  · intro hAtom hEmpty
    unfold parseFeed
    rw [hAtom, if_pos rfl]
    unfold parseAtomFeed
    rw [hEmpty]
    rfl
  · intro hEmpty
    have hok : (fun u => (fetchBody u).map (parseFeed dp)) feed.url
        = .ok (parseFeed dp xml) := by
      dsimp only
      rw [hfetch]
      rfl
    have hrun := refreshFeed_run_eq (fun u => (fetchBody u).map (parseFeed dp))
      genId now feedId s feed (parseFeed dp xml) hfind hok
    rw [hEmpty] at hrun
    simpa [newItemsFor] using hrun

/-- C9 witness: an RSS body containing a channel title and zero items,
refreshed against the one-feed store, yields a successful refresh with
zero new articles and unchanged articles. -/
theorem parseFeed_total_empty_refresh_ok_witness :
    (storeOne.feeds.find? (fun f => f.id == "f1") = some feed1) ∧
    ((parseFeed dpW emptyRss).items = []) ∧
    (handleRefreshFeed
        (fun u => ((fun _ : String => (Except.ok emptyRss : Except String String)) u).map
          (parseFeed dpW))
        (fun _ => "x") "2024-06-01T00:00:00Z" "f1" storeOne
      = (.ok 0, { storeOne with
          feeds := updateFirst (fun f => f.id == "f1")
              (fun f => { f with lastFetched := "2024-06-01T00:00:00Z" })
              storeOne.feeds })) :=
  ⟨rfl, by decide,
    (parseFeed_total_empty_refresh_ok dpW emptyRss (fun _ => .ok emptyRss)
      (fun _ => "x") "2024-06-01T00:00:00Z" "f1" storeOne feed1 rfl rfl).2.2 (by decide)⟩

end RSSWorker

